import Mathlib

/-
Shallow embedding of the mouse-jiggler motion engine.

Modelling conventions:
- Rust f64 arithmetic is modelled over the rationals; f64 rounding with
  rustRound (round half away from zero, as f64::round does).
- std::time::Duration values are whole milliseconds (a natural number).
- i32 coordinates are modelled as integers.
- PointExt.is_near compares squared distance with the squared tolerance;
  over the reals, sqrt d < t with d nonnegative and t positive is
  equivalent to d < t * t, so the sqrt of the source is eliminated.
- Fallible or possibly diverging loops take a fuel argument and return
  an Option, with none meaning the fuel ran out.
- Randomness (fastrand) and device/terminal state (mouse position reads,
  stdin polls, per-frame wall-clock durations) are environment streams
  passed explicitly; the fastrand i32 draw on an inclusive range maps a
  source value into the range and fails (as the source panics) when the
  range is empty.
-/

namespace Jiggler

/-! Definitions from src/animation.rs. -/

/-- Rust f64 clamp to the unit interval, as in t.clamp(0., 1.). -/
def clamp01 (t : ℚ) : ℚ := min (max t 0) 1

/-- lerp from src/animation.rs: min + (max - min) * t, with t clamped. -/
def lerp (mn mx t : ℚ) : ℚ := mn + (mx - mn) * clamp01 t

/-- flip from src/animation.rs. -/
def flip (t : ℚ) : ℚ := 1 - t

/-- square from src/animation.rs. -/
def square (t : ℚ) : ℚ := t * t

/-- ease_in from src/animation.rs. -/
def ease_in (t : ℚ) : ℚ := square t

/-- ease_out from src/animation.rs. -/
def ease_out (t : ℚ) : ℚ := flip (square (flip t))

/-- ease_in_out from src/animation.rs. -/
def ease_in_out (t : ℚ) : ℚ := lerp (ease_in t) (ease_out t) t

/-- Rust f64::round: round half away from zero. -/
def rustRound (q : ℚ) : ℤ := if 0 ≤ q then ⌊q + 1 / 2⌋ else -⌊-q + 1 / 2⌋

/-! Definitions from src/mouse.rs: points. -/

/-- AUTO_PAUSE_TOLERANCE from src/mouse.rs. -/
def AUTO_PAUSE_TOLERANCE : ℚ := 50

/-- PointExt from src/mouse.rs. -/
structure PointExt where
  x : ℤ
  y : ℤ
deriving DecidableEq

/-- PointExt::is_near from src/mouse.rs: Euclidean distance strictly below
the tolerance; stated on squared distances (equivalent for a positive
tolerance, both call sites pass 50.0 or 100.0). -/
def PointExt.is_near (self p : PointExt) (tolerance : ℚ) : Prop :=
  ((self.x : ℚ) - (p.x : ℚ)) ^ 2 + ((self.y : ℚ) - (p.y : ℚ)) ^ 2
    < tolerance ^ 2

instance (a b : PointExt) (t : ℚ) : Decidable (a.is_near b t) := by
  unfold PointExt.is_near
  infer_instance

/-- PointExt::lerp from src/mouse.rs: per-coordinate float interpolation
with clamped t and rounding to the nearest integer. -/
def PointExt.lerp (p1 p2 : PointExt) (t : ℚ) : PointExt :=
  let t_clamp := clamp01 t
  { x := rustRound ((p1.x : ℚ) + ((p2.x - p1.x : ℤ) : ℚ) * t_clamp)
    y := rustRound ((p1.y : ℚ) + ((p2.y - p1.y : ℤ) : ℚ) * t_clamp) }

/-! Definitions from src/bounds.rs. -/

/-- Bounds from src/bounds.rs. -/
inductive Bounds where
  | Rect (x1 y1 x2 y2 : ℤ)
  | Relative (dx dy : ℤ)
deriving DecidableEq

/-- Bounds::is_relative from src/bounds.rs. -/
def Bounds.is_relative : Bounds → Bool
  | .Rect _ _ _ _ => false
  | .Relative _ _ => true

/-- Bounds::has_empty_range from src/bounds.rs. -/
def Bounds.has_empty_range : Bounds → Bool
  | .Rect x1 y1 x2 y2 => decide (x1 = x2) && decide (y1 = y2)
  | .Relative dx dy => decide (dx = 0) && decide (dy = 0)

/-- From impl From for Bounds in src/bounds.rs: absolute-bounds
wins over relative-bounds, and with neither supplied the default is
Relative with dx = 500 and dy = 500. The ArgMatches lookup is modelled by
the two optional parsed argument groups. -/
def Bounds.from_matches (abs : Option (ℤ × ℤ × ℤ × ℤ)) (rel : Option (ℤ × ℤ)) :
    Bounds :=
  match abs with
  | some (x1, y1, x2, y2) => .Rect x1 y1 x2 y2
  | none =>
    match rel with
    | some (dx, dy) => .Relative dx dy
    | none => .Relative 500 500

/-! Definitions from src/main.rs: the point sampler. -/

/-- The inclusive x and y ranges the bounds describe, over unbounded
integers: Rect corners normalized exactly as sample_point does, Relative
the window around the origin as written. The program computes the
Relative endpoints in i32 arithmetic; see drawRanges for the ranges it
actually draws from. -/
def sampleRanges (b : Bounds) (orig : PointExt) : (ℤ × ℤ) × (ℤ × ℤ) :=
  match b with
  | .Rect x1 y1 x2 y2 =>
    ((if x1 ≤ x2 then (x1, x2) else (x2, x1)),
     (if y1 ≤ y2 then (y1, y2) else (y2, y1)))
  | .Relative dx dy =>
    ((orig.x - dx, orig.x + dx), (orig.y - dy, orig.y + dy))

/-- The set of points the bounds window admits: the idealized inclusive
ranges of sampleRanges, which coincide with the ranges the sampler draws
from whenever the Relative window arithmetic stays inside i32. -/
def pointSet (b : Bounds) (orig : PointExt) : Finset (ℤ × ℤ) :=
  (Finset.Icc (sampleRanges b orig).1.1 (sampleRanges b orig).1.2) ×ˢ
    (Finset.Icc (sampleRanges b orig).2.1 (sampleRanges b orig).2.2)

/-- Wrapping i32 arithmetic: reduce an integer into
the range from -2^31 to 2^31 - 1, as a release build does on overflow
(2147483648 is 2^31 and 4294967296 is 2^32). -/
def wrap32 (z : ℤ) : ℤ := (z + 2147483648) % 4294967296 - 2147483648

/-- An integer representable as an i32. -/
def inI32 (z : ℤ) : Prop := -2147483648 ≤ z ∧ z ≤ 2147483647

/-- The ranges sample_point actually passes to the random generator
(src/main.rs lines 175 to 201): the Rect ranges involve no arithmetic,
while the Relative endpoints orig.x - dx and orig.x + dx are computed in
i32, so a release build wraps them on overflow (a debug build panics
right there, producing no point either). -/
def drawRanges (b : Bounds) (orig : PointExt) : (ℤ × ℤ) × (ℤ × ℤ) :=
  match b with
  | .Rect x1 y1 x2 y2 => sampleRanges (.Rect x1 y1 x2 y2) orig
  | .Relative dx dy =>
    ((wrap32 (orig.x - dx), wrap32 (orig.x + dx)),
     (wrap32 (orig.y - dy), wrap32 (orig.y + dy)))

/-- The Relative window endpoints stay inside i32, so nothing wraps; Rect
involves no arithmetic. Under this condition drawRanges equals
sampleRanges. -/
def noOverflow : Bounds → PointExt → Prop
  | .Rect _ _ _ _, _ => True
  | .Relative dx dy, orig =>
    inI32 (orig.x - dx) ∧ inI32 (orig.x + dx) ∧
      inI32 (orig.y - dy) ∧ inI32 (orig.y + dy)

/-- fastrand Rng::i32 on an inclusive range: a draw from the source value
v into the range lo..=hi; the source panics on an empty range, modelled as
none. -/
def rngI32 (v lo hi : ℤ) : Option ℤ :=
  if lo ≤ hi then some (lo + v % (hi - lo + 1)) else none

/-- One loop body of sample_point from src/main.rs: the x draw then the y
draw, over the i32 ranges of the matched bounds variant. -/
def drawPoint (vx vy : ℤ) (b : Bounds) (orig : PointExt) : Option PointExt :=
  match rngI32 vx (drawRanges b orig).1.1 (drawRanges b orig).1.2 with
  | none => none
  | some x =>
    match rngI32 vy (drawRanges b orig).2.1 (drawRanges b orig).2.2 with
    | none => none
    | some y => some ⟨x, y⟩

/-- The rejection loop of sample_point from src/main.rs: iteration k
consumes stream values 2k and 2k+1 and returns the drawn point unless it
equals last_p. -/
def samplePointAux (vs : ℕ → ℤ) (b : Bounds) (orig last_p : PointExt) :
    ℕ → ℕ → Option PointExt
  | 0, _ => none
  | fuel + 1, k =>
    match drawPoint (vs (2 * k)) (vs (2 * k + 1)) b orig with
    | none => none
    | some result =>
      if result ≠ last_p then some result
      else samplePointAux vs b orig last_p fuel (k + 1)

/-- sample_point from src/main.rs, starting at iteration 0. -/
def sample_point (vs : ℕ → ℤ) (b : Bounds) (orig last_p : PointExt)
    (fuel : ℕ) : Option PointExt :=
  samplePointAux vs b orig last_p fuel 0

/-- The draw of iteration k of sample_point. -/
def drawAt (vs : ℕ → ℤ) (k : ℕ) (b : Bounds) (orig : PointExt) :
    Option PointExt :=
  drawPoint (vs (2 * k)) (vs (2 * k + 1)) b orig

/-- A run of sample_point that never returns, for any amount of fuel. -/
def neverReturns (vs : ℕ → ℤ) (b : Bounds) (orig last_p : PointExt) : Prop :=
  ∀ fuel, sample_point vs b orig last_p fuel = none

/-- The Relative draw ranges are nonempty exactly when the deltas are
nonnegative; Rect ranges are always nonempty after normalization. -/
def relNonneg : Bounds → Prop
  | .Rect _ _ _ _ => True
  | .Relative dx dy => 0 ≤ dx ∧ 0 ≤ dy

/-- Stated from the spec wording of C2, for comparison with the sampler:
a Rect point lies between the normalized corner coordinates, a Relative
point lies in the window of the deltas around the origin. -/
def specInBounds (b : Bounds) (orig : PointExt) (pt : PointExt) : Prop :=
  match b with
  | .Rect x1 y1 x2 y2 =>
    min x1 x2 ≤ pt.x ∧ pt.x ≤ max x1 x2 ∧ min y1 y2 ≤ pt.y ∧ pt.y ≤ max y1 y2
  | .Relative dx dy =>
    orig.x - dx ≤ pt.x ∧ pt.x ≤ orig.x + dx ∧
      orig.y - dy ≤ pt.y ∧ pt.y ≤ orig.y + dy

/-! Definitions from src/cli.rs and the startup code of src/main.rs. -/

/-- parse_sec_u64 from src/cli.rs, on the already numeric value of the
input string: positive seconds become milliseconds. -/
def parse_sec_u64 (v : ℕ) : Option ℕ :=
  if 0 < v then some (v * 1000) else none

/-- The parsed user-supplied arguments relevant to interval handling.
Durations are parsed milliseconds; none means the user did not pass the
argument on the command line. -/
structure Matches where
  interval_user : Option ℕ
  pause_user : Option ℕ

/-- The INTERVAL argument as main.rs reads it: clap stores the parsed user
value, or the parsed declared default "1" (one second) when unset. -/
def Matches.get_interval (m : Matches) : ℕ :=
  m.interval_user.getD ((parse_sec_u64 1).getD 0)

/-- The pause-interval argument as clap hands it to main.rs: the arg is
declared in src/cli.rs with default_value "10", so get_one returns the
parsed user value, or the parsed default "10" (ten seconds) when unset;
it is never none. -/
def Matches.get_pause_interval (m : Matches) : Option ℕ :=
  some (m.pause_user.getD ((parse_sec_u64 10).getD 0))

/-- pause_interval as constructed in main (src/main.rs lines 31 to 33):
the clap value, with unwrap_or falling back to interval. -/
def main_pause_interval (m : Matches) : ℕ :=
  (m.get_pause_interval).getD m.get_interval

/-! Definitions from src/mouse.rs: the motion engine. -/

/-- MouseExt configuration from src/mouse.rs (the fields copied out of
Config by with_config; the Mouse handle itself is the environment).
Durations are whole milliseconds. -/
structure MCfg where
  interval : ℕ
  pause_interval : ℕ
  fps : ℕ
  animate : Bool
  auto_pause : Bool
deriving DecidableEq

/-- frame_time computed in MouseExt::move_to: 1000/fps as f64, rounded to
whole milliseconds, then as u64 (nonnegative here). -/
def frame_time (c : MCfg) : ℕ := (rustRound (1000 / (c.fps : ℚ))).toNat

/-- Environment streams consumed by the animated move_to loop, indexed by
the frame counter k: posA is the curr_pos read at the top of frame k, posB
the read-back after the frame issues a move command, dtWork the wall time
the work of frame k took when measured for the sleep decision, dtFull the
wall time added to elapsed at the end of frame k, stdin the result of the
zero-timeout stdin poll of frame k. pos0 is the start_pos read before the
loop. -/
structure FrameEnv where
  pos0 : PointExt
  posA : ℕ → PointExt
  posB : ℕ → PointExt
  dtWork : ℕ → ℕ
  dtFull : ℕ → ℕ
  stdin : ℕ → Bool

/-- Outcome of a move_to call: Ok(()) or Err(MouseError::Busy). Device
errors are not modelled (the device reads of the environment are total). -/
inductive MoveResult where
  | completed
  | busy
deriving DecidableEq

/-- Observable trace of one move_to call: its outcome (none when the fuel
ran out), the move commands issued with the frame that issued them, the
(reference, observed) position pairs read at the busy-check points, the
number of frame iterations entered, the number of zero-timeout stdin
polls performed, and the frame at which Busy was returned. -/
structure MoveTrace where
  result : Option MoveResult
  cmds : List (ℕ × PointExt)
  obs : List (PointExt × PointExt)
  frames : ℕ
  polls : ℕ
  busyFrame : Option ℕ
deriving DecidableEq

/-- The while loop of MouseExt::move_to from src/mouse.rs, one frame per
fuel unit. Frame k: read curr_pos; if auto_pause and curr_pos is not near
last_pos, return Busy; interpolate the eased position for t = elapsed over
interval; issue a move command and re-read last_pos only when the
position changes; when the frame work time is under the frame budget,
sleep and poll stdin with zero timeout, returning Ok when a signal is
pending; finally add the frame wall time to elapsed. -/
def move_to_loop (c : MCfg) (env : FrameEnv) (start p : PointExt) :
    PointExt → ℕ → ℕ → ℕ → MoveTrace
  | _, _, _, 0 => ⟨none, [], [], 0, 0, none⟩
  | last_pos, elapsed, k, fuel + 1 =>
    if elapsed < c.interval then
      let curr_pos := env.posA k
      if c.auto_pause = true ∧ ¬ last_pos.is_near curr_pos AUTO_PAUSE_TOLERANCE then
        ⟨some .busy, [], [(last_pos, curr_pos)], 1, 0, some k⟩
      else
        let t : ℚ := (elapsed : ℚ) / (c.interval : ℚ)
        let new_pos := PointExt.lerp start p (ease_in_out t)
        let cmdList := if new_pos ≠ last_pos then [(k, new_pos)] else []
        let last' := if new_pos ≠ last_pos then env.posB k else last_pos
        if env.dtWork k < frame_time c then
          if env.stdin k then
            ⟨some .completed, cmdList, [(last_pos, curr_pos)], 1, 1, none⟩
          else
            let r := move_to_loop c env start p last'
              (elapsed + env.dtFull k) (k + 1) fuel
            ⟨r.result, cmdList ++ r.cmds, (last_pos, curr_pos) :: r.obs,
              r.frames + 1, r.polls + 1, r.busyFrame⟩
        else
          let r := move_to_loop c env start p last'
            (elapsed + env.dtFull k) (k + 1) fuel
          ⟨r.result, cmdList ++ r.cmds, (last_pos, curr_pos) :: r.obs,
            r.frames + 1, r.polls, r.busyFrame⟩
    else ⟨some .completed, [], [], 0, 0, none⟩

/-- MouseExt::move_to_no_animate from src/mouse.rs: command the target,
block on stdin for the interval (stdinWait is the poll outcome), then,
only when no signal arrived and auto_pause is set, read the position back
and return Busy when it is not near the target. -/
def move_to_no_animate (c : MCfg) (stdinWait : Bool) (posAfter p : PointExt) :
    MoveTrace :=
  if stdinWait then ⟨some .completed, [(0, p)], [], 0, 1, none⟩
  else if c.auto_pause then
    if ¬ posAfter.is_near p AUTO_PAUSE_TOLERANCE then
      ⟨some .busy, [(0, p)], [(posAfter, p)], 0, 1, some 0⟩
    else ⟨some .completed, [(0, p)], [(posAfter, p)], 0, 1, none⟩
  else ⟨some .completed, [(0, p)], [], 0, 1, none⟩

/-- Environment of one move_to call: the frame streams for the animated
path, and the blocking stdin poll outcome with the post-wait position
read for the non-animated path. -/
structure MoveEnv where
  fe : FrameEnv
  stdinWait : Bool
  posAfter : PointExt

/-- MouseExt::move_to from src/mouse.rs: dispatch on animate, then run
the frame loop from the start position. -/
def move_to (c : MCfg) (env : MoveEnv) (p : PointExt) (fuel : ℕ) : MoveTrace :=
  if !c.animate then move_to_no_animate c env.stdinWait env.posAfter p
  else move_to_loop c env.fe env.fe.pos0 p env.fe.pos0 0 0 fuel

/-- The number of stdin polls a stretch of frame iterations should
perform, per the source: one poll in each frame whose work time is under
the frame budget, none in the frames that overrun it. -/
def pollsSpec (c : MCfg) (env : FrameEnv) : ℕ → ℕ → ℕ
  | _, 0 => 0
  | k, frames + 1 =>
    (if env.dtWork k < frame_time c then 1 else 0) + pollsSpec c env (k + 1) frames

/-! Definitions from src/main.rs: the adaptive auto_pause loop. -/

/-- Environment streams of the auto_pause function in src/main.rs: pos is
the stream of successive position reads (read n is the n-th read of the
call), stdin80 the outer 80 ms polls indexed by outer iteration, stdin2
the inner 2 s polls indexed by a running counter, iterDur the wall time a
reset-free outer iteration adds to elapsed, tailDur the wall time from
the last timer restart to the end of an outer iteration that reset. -/
structure PauseEnv where
  pos : ℕ → PointExt
  stdin80 : ℕ → Bool
  stdin2 : ℕ → Bool
  iterDur : ℕ → ℕ
  tailDur : ℕ → ℕ

/-- Outcome of the auto_pause function: the countdown ran to completion,
a pending input broke it early, or the auto_pause flag was off. -/
inductive PauseResult where
  | timedOut
  | cancelled
  | skipped
deriving DecidableEq

/-- Observable trace of auto_pause: the outcome (none when fuel ran out)
and, for each completed outer iteration, whether it reset the countdown
and the duration it contributed. -/
structure PTrace where
  result : Option PauseResult
  log : List (Bool × ℕ)
deriving DecidableEq

/-- The inner reset loop of auto_pause in src/main.rs: read curr_pos at
index n; if it is near the anchor p (tolerance 100), exit; otherwise
refresh the anchor to curr_pos, break the whole countdown when the 2 s
poll reports input, else restart the timer and loop. Returns the new
anchor, the next read and poll indices, whether the countdown was broken,
and whether any reset happened. -/
def reset_loop (env : PauseEnv) :
    PointExt → ℕ → ℕ → Bool → ℕ → Option (PointExt × ℕ × ℕ × Bool × Bool)
  | _, _, _, _, 0 => none
  | p, n, m, didReset, fuel + 1 =>
    let curr_pos := env.pos n
    if p.is_near curr_pos 100 then some (p, n + 1, m, false, didReset)
    else if env.stdin2 m then some (curr_pos, n + 1, m + 1, true, true)
    else reset_loop env curr_pos (n + 1) (m + 1) true fuel

/-- State of the countdown loop of auto_pause: elapsed wall time since
the last timer (re)start, the outer iteration index, the position read
index, the inner poll index, and the current anchor. -/
structure PState where
  elapsed : ℕ
  i : ℕ
  n : ℕ
  m : ℕ
  anchor : PointExt

/-- The countdown while loop of auto_pause in src/main.rs: while elapsed
is at most pause_interval, poll stdin for 80 ms (break on input), run the
inner reset loop, and recompute elapsed at the end of the iteration: the
full time since the last restart, which is the old elapsed plus this
iteration when no reset happened, and the post-restart tail alone when it
did. -/
def countdown_loop (env : PauseEnv) (pi_ : ℕ) : PState → ℕ → ℕ → PTrace
  | _, _, 0 => ⟨none, []⟩
  | s, ifuel, fuel + 1 =>
    if s.elapsed ≤ pi_ then
      if env.stdin80 s.i then ⟨some .cancelled, []⟩
      else
        match reset_loop env s.anchor s.n s.m false ifuel with
        | none => ⟨none, []⟩
        | some (_, _, _, true, _) => ⟨some .cancelled, []⟩
        | some (a, n, m, false, didReset) =>
          let d := if didReset then env.tailDur s.i else env.iterDur s.i
          let e := if didReset then env.tailDur s.i else s.elapsed + env.iterDur s.i
          let r := countdown_loop env pi_ ⟨e, s.i + 1, n, m, a⟩ ifuel fuel
          ⟨r.result, (didReset, d) :: r.log⟩
    else ⟨some .timedOut, []⟩

/-- The auto_pause function of src/main.rs: return at once when the flag
is off, otherwise read the initial anchor and run the countdown from
elapsed 0. -/
def auto_pause_run (c : MCfg) (env : PauseEnv) (ifuel fuel : ℕ) : PTrace :=
  if !c.auto_pause then ⟨some .skipped, []⟩
  else countdown_loop env c.pause_interval ⟨0, 0, 1, 0, env.pos 0⟩ ifuel fuel

/-- The elapsed value the countdown accounting reaches after folding a
log of iterations from a given starting elapsed: a reset-free iteration
adds its duration, a resetting iteration restarts from its tail alone. -/
def tailElapsed : ℕ → List (Bool × ℕ) → ℕ
  | e, [] => e
  | e, (didReset, d) :: rest => tailElapsed (if didReset then d else e + d) rest

/-! Concrete configurations and environments used for witnesses and
counterexamples. -/

/-- A config for an animated move with auto-pause on: interval 32 ms,
pause 1000 ms, 60 fps. -/
def cfgBusy : MCfg := ⟨32, 1000, 60, true, true⟩

/-- An environment whose device jumps to (100, 100) on every frame read
while the start position is the origin. -/
def envBusy : MoveEnv :=
  ⟨⟨⟨0, 0⟩, fun _ => ⟨100, 100⟩, fun _ => ⟨0, 0⟩, fun _ => 1, fun _ => 17,
    fun _ => false⟩, false, ⟨0, 0⟩⟩

/-- A config for an animated move with auto-pause off: interval 32 ms,
pause 1000 ms, 60 fps, so the frame budget is 17 ms. -/
def cfgSlow : MCfg := ⟨32, 1000, 60, true, false⟩

/-- An environment whose frames always take the full 17 ms budget (so the
pacing sleep never happens) while a stdin signal is pending the whole
time. -/
def envSlow : MoveEnv :=
  ⟨⟨⟨0, 0⟩, fun _ => ⟨0, 0⟩, fun _ => ⟨0, 0⟩, fun _ => 17, fun _ => 17,
    fun _ => true⟩, false, ⟨0, 0⟩⟩

/-- An environment whose frames are fast (1 ms of work) with a stdin
signal pending from the start. -/
def envFast : MoveEnv :=
  ⟨⟨⟨0, 0⟩, fun _ => ⟨0, 0⟩, fun _ => ⟨0, 0⟩, fun _ => 1, fun _ => 17,
    fun _ => true⟩, false, ⟨0, 0⟩⟩

/-- A config whose pause interval is 100 ms. -/
def cfgPause : MCfg := ⟨1000, 100, 60, true, true⟩

/-- A pause environment: the device sits at the origin for the first two
reads, then jumps to (300, 300) and stays there; no input ever arrives;
steady iterations take 60 ms and the post-reset tail takes 5 ms. -/
def envPause : PauseEnv :=
  ⟨fun n => if n ≤ 1 then ⟨0, 0⟩ else ⟨300, 300⟩, fun _ => false,
    fun _ => false, fun _ => 60, fun _ => 5⟩

/-! Helper lemmas. -/

lemma clamp01_of_mem {t : ℚ} (h0 : 0 ≤ t) (h1 : t ≤ 1) : clamp01 t = t := by
  unfold clamp01
  rw [max_eq_left h0, min_eq_left h1]

lemma ease_in_out_eq_poly {t : ℚ} (h0 : 0 ≤ t) (h1 : t ≤ 1) :
    ease_in_out t = 3 * t ^ 2 - 2 * t ^ 3 := by
  unfold ease_in_out lerp ease_in ease_out flip square
  rw [clamp01_of_mem h0 h1]
  ring

lemma rngI32_mem {v lo hi x : ℤ} (h : rngI32 v lo hi = some x) :
    lo ≤ x ∧ x ≤ hi := by
  unfold rngI32 at h
  split at h
  · next hle =>
    injection h with h
    subst h
    have hpos : (0 : ℤ) < hi - lo + 1 := by omega
    have h1 : 0 ≤ v % (hi - lo + 1) := Int.emod_nonneg v (by omega)
    have h2 : v % (hi - lo + 1) < hi - lo + 1 := Int.emod_lt_of_pos v hpos
    omega
  · exact absurd h (by simp)

lemma pointSet_card (b : Bounds) (orig : PointExt) :
    (pointSet b orig).card =
      ((sampleRanges b orig).1.2 + 1 - (sampleRanges b orig).1.1).toNat *
      ((sampleRanges b orig).2.2 + 1 - (sampleRanges b orig).2.1).toNat := by
  unfold pointSet
  rw [Finset.card_product, Int.card_Icc, Int.card_Icc]

lemma mul_le_one_iff_of_pos {a b : ℕ} (ha : 1 ≤ a) (hb : 1 ≤ b) :
    a * b ≤ 1 ↔ a = 1 ∧ b = 1 := by
  constructor
  · intro h
    constructor <;> nlinarith
  · rintro ⟨rfl, rfl⟩
    simp

/-! Theorems for the claims. -/

/-- Claim C9: ease_in_out maps 0 to 0, 1 to 1, one half to one half, and
is monotone non-decreasing on the unit interval. -/
theorem c9_ease_in_out_props :
    ease_in_out 0 = 0 ∧ ease_in_out 1 = 1 ∧ ease_in_out (1 / 2) = 1 / 2 ∧
    ∀ s t : ℚ, 0 ≤ s → s ≤ t → t ≤ 1 → ease_in_out s ≤ ease_in_out t := by
  refine ⟨?_, ?_, ?_, ?_⟩
  · norm_num [ease_in_out, lerp, ease_in, ease_out, flip, square, clamp01]
  · norm_num [ease_in_out, lerp, ease_in, ease_out, flip, square, clamp01]
  · norm_num [ease_in_out, lerp, ease_in, ease_out, flip, square, clamp01]
  · intro s t hs hst ht1
    have hs1 : s ≤ 1 := hst.trans ht1
    have ht0 : 0 ≤ t := hs.trans hst
    rw [ease_in_out_eq_poly hs hs1, ease_in_out_eq_poly ht0 ht1]
    nlinarith [mul_nonneg (sub_nonneg.2 hst) (mul_nonneg ht0 (sub_nonneg.2 ht1)),
      mul_nonneg (sub_nonneg.2 hst) (mul_nonneg hs (sub_nonneg.2 hs1)),
      mul_nonneg (sub_nonneg.2 hst) (mul_nonneg ht0 (sub_nonneg.2 hs1)),
      mul_nonneg (sub_nonneg.2 hst) (mul_nonneg hs (sub_nonneg.2 ht1))]

/-- Witness for C9 at concrete points of the unit interval. -/
theorem c9_witness :
    ease_in_out 0 = 0 ∧ ease_in_out (1 / 4) ≤ ease_in_out (3 / 4) :=
  ⟨c9_ease_in_out_props.1,
   c9_ease_in_out_props.2.2.2 (1 / 4) (3 / 4) (by norm_num) (by norm_num)
     (by norm_num)⟩

/-- Claim C10: with neither absolute nor relative bounds supplied on the
command line, the bounds default to Relative with both deltas 500, which
is not degenerate. -/
theorem c10_default_bounds :
    Bounds.from_matches none none = Bounds.Relative 500 500 ∧
    (Bounds.from_matches none none).has_empty_range = false := by
  decide

/-- Counterexample to C3: with no arguments supplied at all, the
constructed pause_interval is the parsed clap default of ten seconds,
while interval is the parsed default of one second, so they differ. -/
theorem c3_counterexample :
    main_pause_interval ⟨none, none⟩ ≠ Matches.get_interval ⟨none, none⟩ := by
  decide

/-- Claim C3 amended: the constructed pause_interval is the user value
when supplied and otherwise the clap declared default of ten seconds
(10000 ms); the unwrap_or fallback to interval in main is unreachable. -/
theorem c3_pause_interval_default (m : Matches) :
    main_pause_interval m = m.pause_user.getD 10000 := by
  cases h : m.pause_user <;>
    simp [main_pause_interval, Matches.get_pause_interval, parse_sec_u64, h]

/-- Witness for C3 amended at a concrete Matches value. -/
theorem c3_witness : main_pause_interval ⟨some 2000, none⟩ = 10000 :=
  c3_pause_interval_default ⟨some 2000, none⟩

/-- Counterexample to C4: Relative bounds with dy negative are not
flagged by has_empty_range although the point set they admit is empty,
hence of cardinality at most 1. -/
theorem c4_counterexample :
    (Bounds.Relative 0 (-1)).has_empty_range = false ∧
    (pointSet (Bounds.Relative 0 (-1)) ⟨0, 0⟩).card ≤ 1 := by
  decide

/-- Claim C4 amended: provided the Relative deltas are nonnegative (Rect
needs no side condition), has_empty_range is true exactly when the
admitted point set has cardinality at most 1; the boolean
characterizations of the claim hold by definition. -/
theorem c4_has_empty_range_iff_card (b : Bounds) (orig : PointExt)
    (h : relNonneg b) :
    b.has_empty_range = true ↔ (pointSet b orig).card ≤ 1 := by
  rw [pointSet_card]
  cases b with
  | Rect x1 y1 x2 y2 =>
    simp only [Bounds.has_empty_range, Bool.and_eq_true, decide_eq_true_eq,
      sampleRanges]
    rcases le_or_lt x1 x2 with hx | hx <;> rcases le_or_lt y1 y2 with hy | hy
    · rw [if_pos hx, if_pos hy,
        mul_le_one_iff_of_pos (by simp; omega) (by simp; omega)]
      simp
      omega
    · rw [if_pos hx, if_neg (not_le.2 hy),
        mul_le_one_iff_of_pos (by simp; omega) (by simp; omega)]
      simp
      omega
    · rw [if_neg (not_le.2 hx), if_pos hy,
        mul_le_one_iff_of_pos (by simp; omega) (by simp; omega)]
      simp
      omega
    · rw [if_neg (not_le.2 hx), if_neg (not_le.2 hy),
        mul_le_one_iff_of_pos (by simp; omega) (by simp; omega)]
      simp
      omega
  | Relative dx dy =>
    obtain ⟨hdx, hdy⟩ := h
    simp only [Bounds.has_empty_range, Bool.and_eq_true, decide_eq_true_eq,
      sampleRanges]
    rw [mul_le_one_iff_of_pos (by omega) (by omega)]
    omega

/-- Witness for C4 amended at concrete degenerate Rect bounds. -/
theorem c4_witness :
    (pointSet (Bounds.Rect 3 4 3 4) ⟨5, 5⟩).card ≤ 1 :=
  (c4_has_empty_range_iff_card (Bounds.Rect 3 4 3 4) ⟨5, 5⟩ trivial).mp
    (by decide)

lemma rngI32_eq_of_le {v lo hi : ℤ} (h : lo ≤ hi) :
    rngI32 v lo hi = some (lo + v % (hi - lo + 1)) := by
  unfold rngI32
  rw [if_pos h]

lemma rngI32_hit {lo hi x : ℤ} (h1 : lo ≤ x) (h2 : x ≤ hi) :
    rngI32 (x - lo) lo hi = some x := by
  rw [rngI32_eq_of_le (h1.trans h2)]
  have hm : (x - lo) % (hi - lo + 1) = x - lo :=
    Int.emod_eq_of_lt (by omega) (by omega)
  rw [hm]
  congr 1
  omega

lemma wrap32_eq_of_inI32 {z : ℤ} (h : inI32 z) : wrap32 z = z := by
  obtain ⟨h1, h2⟩ := h
  unfold wrap32
  have hm : (z + 2147483648) % 4294967296 = z + 2147483648 :=
    Int.emod_eq_of_lt (by omega) (by omega)
  rw [hm]
  omega

lemma drawRanges_eq {b : Bounds} {orig : PointExt} (hov : noOverflow b orig) :
    drawRanges b orig = sampleRanges b orig := by
  cases b with
  | Rect x1 y1 x2 y2 => rfl
  | Relative dx dy =>
    obtain ⟨h1, h2, h3, h4⟩ := hov
    simp only [drawRanges, sampleRanges]
    rw [wrap32_eq_of_inI32 h1, wrap32_eq_of_inI32 h2, wrap32_eq_of_inI32 h3,
      wrap32_eq_of_inI32 h4]

lemma drawPoint_mem {vx vy : ℤ} {b : Bounds} {orig pt : PointExt}
    (h : drawPoint vx vy b orig = some pt) (hov : noOverflow b orig) :
    specInBounds b orig pt := by
  unfold drawPoint at h
  rw [drawRanges_eq hov] at h
  cases hx : rngI32 vx (sampleRanges b orig).1.1 (sampleRanges b orig).1.2 with
  | none => rw [hx] at h; exact absurd h (by simp)
  | some x =>
    rw [hx] at h
    cases hy : rngI32 vy (sampleRanges b orig).2.1 (sampleRanges b orig).2.2 with
    | none => rw [hy] at h; exact absurd h (by simp)
    | some y =>
      rw [hy] at h
      injection h with h
      subst h
      obtain ⟨hx1, hx2⟩ := rngI32_mem hx
      obtain ⟨hy1, hy2⟩ := rngI32_mem hy
      cases b with
      | Rect x1 y1 x2 y2 =>
        simp only [sampleRanges] at hx1 hx2 hy1 hy2
        unfold specInBounds
        split_ifs at hx1 hx2 hy1 hy2 <;>
          refine ⟨?_, ?_, ?_, ?_⟩ <;> simp_all
      | Relative dx dy =>
        simp only [sampleRanges] at hx1 hx2 hy1 hy2
        exact ⟨hx1, hx2, hy1, hy2⟩

lemma ranges_nonempty {b : Bounds} (orig : PointExt) (h : relNonneg b) :
    (sampleRanges b orig).1.1 ≤ (sampleRanges b orig).1.2 ∧
    (sampleRanges b orig).2.1 ≤ (sampleRanges b orig).2.2 := by
  cases b with
  | Rect x1 y1 x2 y2 =>
    simp only [sampleRanges]
    split_ifs <;> constructor <;> omega
  | Relative dx dy =>
    obtain ⟨h1, h2⟩ := h
    simp only [sampleRanges]
    omega

lemma ranges_wide {b : Bounds} (orig : PointExt)
    (hval : b.has_empty_range = false) (hnn : relNonneg b) :
    (sampleRanges b orig).1.1 < (sampleRanges b orig).1.2 ∨
    (sampleRanges b orig).2.1 < (sampleRanges b orig).2.2 := by
  cases b with
  | Rect x1 y1 x2 y2 =>
    simp only [Bounds.has_empty_range, Bool.and_eq_false_iff,
      decide_eq_false_iff_not] at hval
    simp only [sampleRanges]
    split_ifs <;> omega
  | Relative dx dy =>
    obtain ⟨h1, h2⟩ := hnn
    simp only [Bounds.has_empty_range, Bool.and_eq_false_iff,
      decide_eq_false_iff_not] at hval
    simp only [sampleRanges]
    omega

lemma drawPoint_isSome {b : Bounds} {orig : PointExt} (vx vy : ℤ)
    (hnn : relNonneg b) (hov : noOverflow b orig) :
    ∃ pt, drawPoint vx vy b orig = some pt := by
  obtain ⟨h1, h2⟩ := ranges_nonempty orig hnn
  unfold drawPoint
  rw [drawRanges_eq hov, rngI32_eq_of_le h1, rngI32_eq_of_le h2]
  exact ⟨_, rfl⟩

lemma samplePointAux_mem {vs : ℕ → ℤ} {b : Bounds} {orig last_p : PointExt} :
    ∀ fuel k pt, samplePointAux vs b orig last_p fuel k = some pt →
      (∃ vx vy, drawPoint vx vy b orig = some pt) ∧ pt ≠ last_p := by
  intro fuel
  induction fuel with
  | zero => intro k pt h; exact absurd h (by simp [samplePointAux])
  | succ n ih =>
    intro k pt h
    unfold samplePointAux at h
    cases hd : drawPoint (vs (2 * k)) (vs (2 * k + 1)) b orig with
    | none => rw [hd] at h; exact absurd h (by simp)
    | some r =>
      rw [hd] at h
      dsimp only at h
      by_cases hr : r ≠ last_p
      · rw [if_pos hr] at h
        injection h with h
        subst h
        exact ⟨⟨_, _, hd⟩, hr⟩
      · rw [if_neg hr] at h
        exact ih (k + 1) pt h

lemma samplePointAux_some_of_good {vs : ℕ → ℤ} {b : Bounds}
    {orig last_p : PointExt} (hnn : relNonneg b) (hov : noOverflow b orig) :
    ∀ fuel k0, (∃ i pt, i < fuel ∧ drawAt vs (k0 + i) b orig = some pt ∧
        pt ≠ last_p) →
      ∃ pt, samplePointAux vs b orig last_p fuel k0 = some pt := by
  intro fuel
  induction fuel with
  | zero =>
    intro k0 ⟨i, pt, hi, _⟩
    exact absurd hi (by omega)
  | succ n ih =>
    intro k0 ⟨i, pt, hi, hd, hne⟩
    obtain ⟨r, hr⟩ := @drawPoint_isSome b orig (vs (2 * k0)) (vs (2 * k0 + 1))
      hnn hov
    unfold samplePointAux
    rw [hr]
    dsimp only
    by_cases hrl : r ≠ last_p
    · rw [if_pos hrl]
      exact ⟨r, rfl⟩
    · rw [if_neg hrl]
      push_neg at hrl
      subst hrl
      have hi0 : i ≠ 0 := by
        intro h0
        subst h0
        rw [Nat.add_zero] at hd
        unfold drawAt at hd
        rw [hd] at hr
        injection hr with hr
        exact hne hr
      refine ih (k0 + 1) ⟨i - 1, pt, by omega, ?_, hne⟩
      have : k0 + 1 + (i - 1) = k0 + i := by omega
      rw [this]
      exact hd

/-- Counterexample to C2: with a Relative dx of i32 MIN the release
build wraps the window arithmetic (as drawRanges models), both endpoints
of the x range become -2147483648, and the sampler returns the point
(-2147483648, 0), which violates the claimed bound orig.x - dx <= x
(here orig.x - dx is 2147483648). -/
theorem c2_counterexample :
    sample_point (fun _ => 0) (Bounds.Relative (-2147483648) 0) ⟨0, 0⟩
        ⟨1, 1⟩ 1 =
      some ⟨-2147483648, 0⟩ ∧
    ¬ specInBounds (Bounds.Relative (-2147483648) 0) ⟨0, 0⟩
        ⟨-2147483648, 0⟩ := by
  constructor
  · decide
  · intro hsp
    exact absurd hsp.1 (by decide)

/-- Claim C2 amended: every point sample_point returns differs from the
forbidden point, and lies inside the claimed bounding region provided the
Relative window arithmetic does not overflow i32 (Rect needs no side
condition, and a debug build panics instead of returning a point where
the condition fails). -/
theorem c2_sample_point_bounds (vs : ℕ → ℤ) (b : Bounds)
    (orig last_p pt : PointExt) (fuel : ℕ)
    (h : sample_point vs b orig last_p fuel = some pt) :
    pt ≠ last_p ∧ (noOverflow b orig → specInBounds b orig pt) := by
  obtain ⟨⟨vx, vy, hd⟩, hne⟩ := samplePointAux_mem fuel 0 pt h
  exact ⟨hne, fun hov => drawPoint_mem hd hov⟩

/-- Witness for C2 amended at a concrete Rect sample, where the overflow
side condition is trivial. -/
theorem c2_witness :
    (⟨3, 3⟩ : PointExt) ≠ ⟨0, 0⟩ ∧
    specInBounds (Bounds.Rect 0 0 10 10) ⟨0, 0⟩ ⟨3, 3⟩ :=
  ⟨(c2_sample_point_bounds (fun _ => 3) (Bounds.Rect 0 0 10 10) ⟨0, 0⟩ ⟨0, 0⟩
      ⟨3, 3⟩ 1 (by decide)).1,
   (c2_sample_point_bounds (fun _ => 3) (Bounds.Rect 0 0 10 10) ⟨0, 0⟩ ⟨0, 0⟩
      ⟨3, 3⟩ 1 (by decide)).2 trivial⟩

/-- Counterexample to C5, two validated inputs on which the sampling
loop can never return a point, for any draw stream and any fuel: Relative
bounds with dy negative (empty y draw range), and Relative bounds with
nonnegative deltas so large that orig.x + dx overflows i32 (the release
build wraps the upper endpoint below the lower one, a debug build panics
at the addition). -/
theorem c5_counterexample :
    ((Bounds.Relative 0 (-1)).has_empty_range = false ∧
      neverReturns (fun _ => 0) (Bounds.Relative 0 (-1)) ⟨0, 0⟩ ⟨0, 0⟩) ∧
    ((Bounds.Relative 2147483000 5).has_empty_range = false ∧
      relNonneg (Bounds.Relative 2147483000 5) ∧
      neverReturns (fun _ => 0) (Bounds.Relative 2147483000 5) ⟨1000, 1000⟩
        ⟨0, 0⟩) := by
  refine ⟨⟨by decide, ?_⟩, by decide, ⟨by decide, by decide⟩, ?_⟩
  · intro fuel
    cases fuel with
    | zero => rfl
    | succ n =>
      norm_num [sample_point, samplePointAux, drawPoint, drawRanges, wrap32,
        rngI32]
  · intro fuel
    cases fuel with
    | zero => rfl
    | succ n =>
      norm_num [sample_point, samplePointAux, drawPoint, drawRanges, wrap32,
        rngI32]

/-- Claim C5 amended: for bounds that pass the startup validation whose
Relative deltas are nonnegative and whose window arithmetic stays inside
i32, the admitted point set has at least two points, every draw succeeds,
a draw reaching a point other than the forbidden one exists, and the loop
returns as soon as any iteration of the stream draws such a point. -/
theorem c5_sample_point_termination (b : Bounds) (orig last_p : PointExt)
    (hval : b.has_empty_range = false) (hnn : relNonneg b)
    (hov : noOverflow b orig) :
    2 ≤ (pointSet b orig).card ∧
    (∀ vx vy, ∃ pt, drawPoint vx vy b orig = some pt) ∧
    (∃ vx vy pt, drawPoint vx vy b orig = some pt ∧ pt ≠ last_p) ∧
    ∀ vs : ℕ → ℤ, (∃ k pt, drawAt vs k b orig = some pt ∧ pt ≠ last_p) →
      ∃ fuel pt, sample_point vs b orig last_p fuel = some pt := by
  obtain ⟨hx, hy⟩ := ranges_nonempty orig hnn
  have hwide := ranges_wide orig hval hnn
  refine ⟨?_, fun vx vy => drawPoint_isSome vx vy hnn hov, ?_, ?_⟩
  · rw [pointSet_card]
    rcases hwide with h | h
    · have h2 : 2 ≤ ((sampleRanges b orig).1.2 + 1 - (sampleRanges b orig).1.1).toNat := by
        omega
      have h1 : 1 ≤ ((sampleRanges b orig).2.2 + 1 - (sampleRanges b orig).2.1).toNat := by
        omega
      calc 2 = 2 * 1 := rfl
        _ ≤ _ := Nat.mul_le_mul h2 h1
    · have h2 : 2 ≤ ((sampleRanges b orig).2.2 + 1 - (sampleRanges b orig).2.1).toNat := by
        omega
      have h1 : 1 ≤ ((sampleRanges b orig).1.2 + 1 - (sampleRanges b orig).1.1).toNat := by
        omega
      calc 2 = 1 * 2 := rfl
        _ ≤ _ := Nat.mul_le_mul h1 h2
  · by_cases hA : (⟨(sampleRanges b orig).1.1, (sampleRanges b orig).2.1⟩ :
        PointExt) = last_p
    · refine ⟨(sampleRanges b orig).1.2 - (sampleRanges b orig).1.1,
        (sampleRanges b orig).2.2 - (sampleRanges b orig).2.1,
        ⟨(sampleRanges b orig).1.2, (sampleRanges b orig).2.2⟩, ?_, ?_⟩
      · unfold drawPoint
        rw [drawRanges_eq hov, rngI32_hit hx le_rfl, rngI32_hit hy le_rfl]
      · rw [← hA]
        intro hEq
        injection hEq with h1 h2
        rcases hwide with h | h <;> omega
    · refine ⟨(sampleRanges b orig).1.1 - (sampleRanges b orig).1.1,
        (sampleRanges b orig).2.1 - (sampleRanges b orig).2.1,
        ⟨(sampleRanges b orig).1.1, (sampleRanges b orig).2.1⟩, ?_, hA⟩
      unfold drawPoint
      rw [drawRanges_eq hov, rngI32_hit le_rfl hx, rngI32_hit le_rfl hy]
  · rintro vs ⟨k, pt, hd, hne⟩
    obtain ⟨r, hr⟩ := samplePointAux_some_of_good hnn hov (k + 1) 0
      ⟨k, pt, by omega, by rw [Nat.zero_add]; exact hd, hne⟩
    exact ⟨k + 1, r, hr⟩

/-- Witness for C5 amended at concrete one-by-two Rect bounds, where the
delta and overflow side conditions are trivial. -/
theorem c5_witness :
    ∃ vx vy pt, drawPoint vx vy (Bounds.Rect 0 0 1 0) ⟨7, 7⟩ = some pt ∧
      pt ≠ (⟨0, 0⟩ : PointExt) :=
  (c5_sample_point_termination (Bounds.Rect 0 0 1 0) ⟨7, 7⟩ ⟨0, 0⟩ (by decide)
    trivial trivial).2.2.1

lemma move_to_loop_busy_iff (c : MCfg) (env : FrameEnv) (start p : PointExt) :
    ∀ fuel last_pos elapsed k,
      ((move_to_loop c env start p last_pos elapsed k fuel).result =
          some .busy ↔
        c.auto_pause = true ∧
          ∃ pr ∈ (move_to_loop c env start p last_pos elapsed k fuel).obs,
            ¬ pr.1.is_near pr.2 AUTO_PAUSE_TOLERANCE) := by
  intro fuel
  induction fuel with
  | zero =>
    intro last_pos elapsed k
    simp [move_to_loop]
  | succ n ih =>
    intro last_pos elapsed k
    unfold move_to_loop
    by_cases h1 : elapsed < c.interval
    case neg => rw [if_neg h1]; simp
    rw [if_pos h1]
    dsimp only
    by_cases h2 : c.auto_pause = true ∧
      ¬ last_pos.is_near (env.posA k) AUTO_PAUSE_TOLERANCE
    · rw [if_pos h2]
      dsimp only
      constructor
      · intro _
        exact ⟨h2.1, ⟨last_pos, env.posA k⟩, by simp, h2.2⟩
      · intro _
        rfl
    · rw [if_neg h2]
      have hhead : ∀ hap : c.auto_pause = true,
          last_pos.is_near (env.posA k) AUTO_PAUSE_TOLERANCE := by
        intro hap
        by_contra hn
        exact h2 ⟨hap, hn⟩
      by_cases h3 : env.dtWork k < frame_time c
      · rw [if_pos h3]
        by_cases h4 : env.stdin k = true
        · rw [if_pos h4]
          dsimp only
          constructor
          · intro h
            exact absurd h (by simp)
          · rintro ⟨hap, pr, hpr, hn⟩
            simp only [List.mem_singleton] at hpr
            subst hpr
            exact absurd (hhead hap) hn
        · rw [if_neg h4]
          dsimp only
          rw [ih _ _ _]
          constructor
          · rintro ⟨hap, pr, hpr, hn⟩
            exact ⟨hap, pr, List.mem_cons_of_mem _ hpr, hn⟩
          · rintro ⟨hap, pr, hpr, hn⟩
            rcases List.mem_cons.mp hpr with hpr | hpr
            · subst hpr
              exact absurd (hhead hap) hn
            · exact ⟨hap, pr, hpr, hn⟩
      · rw [if_neg h3]
        dsimp only
        rw [ih _ _ _]
        constructor
        · rintro ⟨hap, pr, hpr, hn⟩
          exact ⟨hap, pr, List.mem_cons_of_mem _ hpr, hn⟩
        · rintro ⟨hap, pr, hpr, hn⟩
          rcases List.mem_cons.mp hpr with hpr | hpr
          · subst hpr
            exact absurd (hhead hap) hn
          · exact ⟨hap, pr, hpr, hn⟩

lemma move_to_loop_busy_cmds (c : MCfg) (env : FrameEnv) (start p : PointExt) :
    ∀ fuel last_pos elapsed k,
      (∀ j, (move_to_loop c env start p last_pos elapsed k fuel).busyFrame =
          some j →
        k ≤ j ∧ ∀ pr ∈ (move_to_loop c env start p last_pos elapsed k fuel).cmds,
          pr.1 < j) ∧
      ((move_to_loop c env start p last_pos elapsed k fuel).result =
          some .busy →
        ∃ j, (move_to_loop c env start p last_pos elapsed k fuel).busyFrame =
          some j) := by
  intro fuel
  induction fuel with
  | zero =>
    intro last_pos elapsed k
    constructor
    · intro j hj
      exact absurd hj (by simp [move_to_loop])
    · intro h
      exact absurd h (by simp [move_to_loop])
  | succ n ih =>
    intro last_pos elapsed k
    unfold move_to_loop
    by_cases h1 : elapsed < c.interval
    case neg =>
      rw [if_neg h1]
      exact ⟨fun j hj => absurd hj (by simp), fun h => absurd h (by simp)⟩
    rw [if_pos h1]
    dsimp only
    by_cases h2 : c.auto_pause = true ∧
      ¬ last_pos.is_near (env.posA k) AUTO_PAUSE_TOLERANCE
    · rw [if_pos h2]
      dsimp only
      refine ⟨fun j hj => ?_, fun _ => ⟨k, rfl⟩⟩
      injection hj with hj
      subst hj
      exact ⟨le_refl k, by simp⟩
    · rw [if_neg h2]
      by_cases h3 : env.dtWork k < frame_time c
      · rw [if_pos h3]
        by_cases h4 : env.stdin k = true
        · rw [if_pos h4]
          dsimp only
          exact ⟨fun j hj => absurd hj (by simp),
            fun h => absurd h (by simp)⟩
        · rw [if_neg h4]
          dsimp only
          obtain ⟨ihA, ihB⟩ := ih
            (if PointExt.lerp start p
                (ease_in_out ((elapsed : ℚ) / (c.interval : ℚ))) ≠ last_pos then
              env.posB k else last_pos)
            (elapsed + env.dtFull k) (k + 1)
          refine ⟨fun j hj => ?_, fun h => ihB h⟩
          obtain ⟨hk, hcmds⟩ := ihA j hj
          refine ⟨by omega, fun pr hpr => ?_⟩
          rcases List.mem_append.mp hpr with hpr | hpr
          · rcases em (PointExt.lerp start p
                (ease_in_out ((elapsed : ℚ) / (c.interval : ℚ))) ≠ last_pos) with
              hne | hne
            · rw [if_pos hne] at hpr
              simp only [List.mem_singleton] at hpr
              subst hpr
              omega
            · rw [if_neg hne] at hpr
              exact absurd hpr (by simp)
          · exact hcmds pr hpr
      · rw [if_neg h3]
        dsimp only
        obtain ⟨ihA, ihB⟩ := ih
          (if PointExt.lerp start p
              (ease_in_out ((elapsed : ℚ) / (c.interval : ℚ))) ≠ last_pos then
            env.posB k else last_pos)
          (elapsed + env.dtFull k) (k + 1)
        refine ⟨fun j hj => ?_, fun h => ihB h⟩
        obtain ⟨hk, hcmds⟩ := ihA j hj
        refine ⟨by omega, fun pr hpr => ?_⟩
        rcases List.mem_append.mp hpr with hpr | hpr
        · rcases em (PointExt.lerp start p
              (ease_in_out ((elapsed : ℚ) / (c.interval : ℚ))) ≠ last_pos) with
            hne | hne
          · rw [if_pos hne] at hpr
            simp only [List.mem_singleton] at hpr
            subst hpr
            omega
          · rw [if_neg hne] at hpr
            exact absurd hpr (by simp)
        · exact hcmds pr hpr

/-- Claim C1: move_to returns Busy exactly when auto_pause is enabled and
one of the positions observed at a busy-check point is not near its
reference (distance at least the tolerance of 50); in particular with
auto_pause disabled it never returns Busy. -/
theorem c1_move_to_busy_iff (c : MCfg) (env : MoveEnv) (p : PointExt)
    (fuel : ℕ) :
    (move_to c env p fuel).result = some .busy ↔
      c.auto_pause = true ∧
        ∃ pr ∈ (move_to c env p fuel).obs,
          ¬ pr.1.is_near pr.2 AUTO_PAUSE_TOLERANCE := by
  unfold move_to
  by_cases ha : (!c.animate) = true
  · rw [if_pos ha]
    unfold move_to_no_animate
    by_cases hw : env.stdinWait = true
    · rw [if_pos hw]
      simp
    · rw [if_neg hw]
      by_cases hap : c.auto_pause = true
      · rw [if_pos hap]
        by_cases hn : ¬ env.posAfter.is_near p AUTO_PAUSE_TOLERANCE
        · rw [if_pos hn]
          dsimp only
          constructor
          · intro _
            exact ⟨hap, ⟨env.posAfter, p⟩, by simp, hn⟩
          · intro _
            rfl
        · rw [if_neg hn]
          dsimp only
          rw [not_not] at hn
          constructor
          · intro h
            exact absurd h (by simp)
          · rintro ⟨_, pr, hpr, hnr⟩
            simp only [List.mem_singleton] at hpr
            subst hpr
            exact absurd hn hnr
      · rw [if_neg hap]
        dsimp only
        constructor
        · intro h
          exact absurd h (by simp)
        · rintro ⟨h, _⟩
          exact absurd h hap
  · rw [if_neg ha]
    exact move_to_loop_busy_iff c env.fe env.fe.pos0 p fuel env.fe.pos0 0 0

/-- Witness for C1: a concrete animated run whose device jumps by more
than the tolerance on the first frame returns Busy, via the backward
direction of the iff. -/
theorem c1_witness : (move_to cfgBusy envBusy ⟨10, 10⟩ 3).result = some .busy :=
  (c1_move_to_busy_iff cfgBusy envBusy ⟨10, 10⟩ 3).mpr
    ⟨rfl, ⟨⟨0, 0⟩, ⟨100, 100⟩⟩,
      by norm_num [move_to, move_to_loop, cfgBusy, envBusy, frame_time,
        rustRound, PointExt.lerp, PointExt.is_near, AUTO_PAUSE_TOLERANCE,
        ease_in_out, lerp, ease_in, ease_out, flip, square, clamp01],
      by norm_num [PointExt.is_near, AUTO_PAUSE_TOLERANCE]⟩

/-- Claim C8: when an animated move_to returns Busy, every device move
command of the call was issued in a frame strictly before the frame that
observed the divergence; no command is issued in or after it. -/
theorem c8_busy_stops_commands (c : MCfg) (env : MoveEnv) (p : PointExt)
    (fuel : ℕ) (hanim : c.animate = true)
    (hbusy : (move_to c env p fuel).result = some .busy) :
    ∃ j, (move_to c env p fuel).busyFrame = some j ∧
      ∀ pr ∈ (move_to c env p fuel).cmds, pr.1 < j := by
  unfold move_to at hbusy ⊢
  rw [if_neg (by simp [hanim])] at hbusy ⊢
  obtain ⟨j, hj⟩ :=
    (move_to_loop_busy_cmds c env.fe env.fe.pos0 p fuel env.fe.pos0 0 0).2 hbusy
  obtain ⟨_, hlt⟩ :=
    (move_to_loop_busy_cmds c env.fe env.fe.pos0 p fuel env.fe.pos0 0 0).1 j hj
  exact ⟨j, hj, hlt⟩

/-- Witness for C8 at the concrete busy run of the C1 witness
environment. -/
theorem c8_witness :
    ∃ j, (move_to cfgBusy envBusy ⟨10, 10⟩ 3).busyFrame = some j ∧
      ∀ pr ∈ (move_to cfgBusy envBusy ⟨10, 10⟩ 3).cmds, pr.1 < j :=
  c8_busy_stops_commands cfgBusy envBusy ⟨10, 10⟩ 3 rfl
    (by norm_num [move_to, move_to_loop, cfgBusy, envBusy, frame_time,
      rustRound, PointExt.lerp, PointExt.is_near, AUTO_PAUSE_TOLERANCE,
      ease_in_out, lerp, ease_in, ease_out, flip, square, clamp01])

lemma move_to_loop_polls_eq (c : MCfg) (env : FrameEnv) (start p : PointExt) :
    ∀ fuel last_pos elapsed k,
      ((move_to_loop c env start p last_pos elapsed k fuel).result =
          some .busy →
        1 ≤ (move_to_loop c env start p last_pos elapsed k fuel).frames) ∧
      (move_to_loop c env start p last_pos elapsed k fuel).polls =
        pollsSpec c env k
          ((move_to_loop c env start p last_pos elapsed k fuel).frames -
            (if (move_to_loop c env start p last_pos elapsed k fuel).result =
                some .busy then 1 else 0)) := by
  intro fuel
  induction fuel with
  | zero =>
    intro last_pos elapsed k
    refine ⟨fun h => absurd h (by simp [move_to_loop]), ?_⟩
    simp [move_to_loop, pollsSpec]
  | succ n ih =>
    intro last_pos elapsed k
    unfold move_to_loop
    by_cases h1 : elapsed < c.interval
    case neg =>
      rw [if_neg h1]
      refine ⟨fun h => absurd h (by simp), ?_⟩
      simp [pollsSpec]
    rw [if_pos h1]
    dsimp only
    by_cases h2 : c.auto_pause = true ∧
      ¬ last_pos.is_near (env.posA k) AUTO_PAUSE_TOLERANCE
    · rw [if_pos h2]
      dsimp only
      refine ⟨fun _ => le_refl 1, ?_⟩
      simp [pollsSpec]
    · rw [if_neg h2]
      by_cases h3 : env.dtWork k < frame_time c
      · rw [if_pos h3]
        by_cases h4 : env.stdin k = true
        · rw [if_pos h4]
          dsimp only
          refine ⟨fun h => absurd h (by simp), ?_⟩
          simp [pollsSpec, h3]
        · rw [if_neg h4]
          dsimp only
          obtain ⟨ihA, ihB⟩ := ih
            (if PointExt.lerp start p
                (ease_in_out ((elapsed : ℚ) / (c.interval : ℚ))) ≠ last_pos then
              env.posB k else last_pos)
            (elapsed + env.dtFull k) (k + 1)
          refine ⟨fun _ => by omega, ?_⟩
          by_cases hb : (move_to_loop c env start p
              (if PointExt.lerp start p
                  (ease_in_out ((elapsed : ℚ) / (c.interval : ℚ))) ≠ last_pos then
                env.posB k else last_pos)
              (elapsed + env.dtFull k) (k + 1) n).result = some .busy
          · rw [if_pos hb]
            have hf := ihA hb
            have he : (move_to_loop c env start p
                (if PointExt.lerp start p
                    (ease_in_out ((elapsed : ℚ) / (c.interval : ℚ))) ≠ last_pos then
                  env.posB k else last_pos)
                (elapsed + env.dtFull k) (k + 1) n).frames + 1 - 1 =
                ((move_to_loop c env start p
                  (if PointExt.lerp start p
                      (ease_in_out ((elapsed : ℚ) / (c.interval : ℚ))) ≠ last_pos then
                    env.posB k else last_pos)
                  (elapsed + env.dtFull k) (k + 1) n).frames - 1) + 1 := by
              omega
            rw [he, pollsSpec, if_pos h3, ihB, if_pos hb]
            omega
          · rw [if_neg hb, Nat.sub_zero, pollsSpec, if_pos h3, ihB, if_neg hb,
              Nat.sub_zero]
            omega
      · rw [if_neg h3]
        dsimp only
        obtain ⟨ihA, ihB⟩ := ih
          (if PointExt.lerp start p
              (ease_in_out ((elapsed : ℚ) / (c.interval : ℚ))) ≠ last_pos then
            env.posB k else last_pos)
          (elapsed + env.dtFull k) (k + 1)
        refine ⟨fun _ => by omega, ?_⟩
        by_cases hb : (move_to_loop c env start p
            (if PointExt.lerp start p
                (ease_in_out ((elapsed : ℚ) / (c.interval : ℚ))) ≠ last_pos then
              env.posB k else last_pos)
            (elapsed + env.dtFull k) (k + 1) n).result = some .busy
        · rw [if_pos hb]
          have hf := ihA hb
          have he : (move_to_loop c env start p
              (if PointExt.lerp start p
                  (ease_in_out ((elapsed : ℚ) / (c.interval : ℚ))) ≠ last_pos then
                env.posB k else last_pos)
              (elapsed + env.dtFull k) (k + 1) n).frames + 1 - 1 =
              ((move_to_loop c env start p
                (if PointExt.lerp start p
                    (ease_in_out ((elapsed : ℚ) / (c.interval : ℚ))) ≠ last_pos then
                  env.posB k else last_pos)
                (elapsed + env.dtFull k) (k + 1) n).frames - 1) + 1 := by
            omega
          rw [he, pollsSpec, if_neg h3, ihB, if_pos hb]
          omega
        · rw [if_neg hb, Nat.sub_zero, pollsSpec, if_neg h3, ihB, if_neg hb,
            Nat.sub_zero]
          omega

/-- Counterexample to C7: an animated run (auto_pause off, interval 32 ms,
60 fps so the frame budget is 17 ms) whose frames each take the whole
17 ms budget, with a stdin signal pending on every frame: the run enters
two frame iterations, performs zero stdin polls, and completes its full
natural duration instead of returning at the first frame. -/
theorem c7_counterexample :
    (move_to cfgSlow envSlow ⟨10, 10⟩ 5).frames = 2 ∧
    (move_to cfgSlow envSlow ⟨10, 10⟩ 5).polls = 0 ∧
    (move_to cfgSlow envSlow ⟨10, 10⟩ 5).result = some .completed := by
  norm_num [move_to, move_to_loop, cfgSlow, envSlow, frame_time, rustRound,
    PointExt.lerp, PointExt.is_near, AUTO_PAUSE_TOLERANCE, ease_in_out, lerp,
    ease_in, ease_out, flip, square, clamp01]

/-- Claim C7 amended: during an animated move_to the zero-timeout stdin
poll runs exactly once in every entered frame whose work time is under
the frame budget, and in none of the frames that overrun it (a frame that
ends the call with Busy polls nothing); and in any reached frame state
where the poll runs (the frame is entered, the busy check passes, the
work time is under the budget) and the signal is pending, the call
returns Completed immediately, after that single frame iteration. -/
theorem c7_poll_under_budget (c : MCfg) (env : MoveEnv) (p : PointExt)
    (fuel : ℕ) (hanim : c.animate = true) :
    (move_to c env p fuel).polls =
      pollsSpec c env.fe 0
        ((move_to c env p fuel).frames -
          (if (move_to c env p fuel).result = some .busy then 1 else 0)) ∧
    ∀ last_pos elapsed k f, elapsed < c.interval →
      ¬ (c.auto_pause = true ∧
        ¬ last_pos.is_near (env.fe.posA k) AUTO_PAUSE_TOLERANCE) →
      env.fe.dtWork k < frame_time c → env.fe.stdin k = true →
      (move_to_loop c env.fe env.fe.pos0 p last_pos elapsed k (f + 1)).result =
          some .completed ∧
        (move_to_loop c env.fe env.fe.pos0 p last_pos elapsed k
          (f + 1)).frames = 1 := by
  constructor
  · unfold move_to
    rw [if_neg (by simp [hanim])]
    exact (move_to_loop_polls_eq c env.fe env.fe.pos0 p fuel env.fe.pos0 0 0).2
  · intro last_pos elapsed k f h1 h2 h3 h4
    unfold move_to_loop
    rw [if_pos h1]
    dsimp only
    rw [if_neg h2, if_pos h3, if_pos h4]
    exact ⟨rfl, rfl⟩

/-- Witness for C7 amended: the poll-count equation instantiated at the
all-frames-overrun run of the counterexample environment, and the
immediate Completed return at a concrete reached frame with a fast frame
and a pending signal. -/
theorem c7_witness :
    ((move_to cfgSlow envSlow ⟨10, 10⟩ 5).polls =
      pollsSpec cfgSlow envSlow.fe 0
        ((move_to cfgSlow envSlow ⟨10, 10⟩ 5).frames -
          (if (move_to cfgSlow envSlow ⟨10, 10⟩ 5).result = some .busy then 1
            else 0))) ∧
    (move_to_loop cfgSlow envFast.fe envFast.fe.pos0 ⟨10, 10⟩ ⟨0, 0⟩ 0 0
        (4 + 1)).result = some .completed ∧
    (move_to_loop cfgSlow envFast.fe envFast.fe.pos0 ⟨10, 10⟩ ⟨0, 0⟩ 0 0
        (4 + 1)).frames = 1 :=
  ⟨(c7_poll_under_budget cfgSlow envSlow ⟨10, 10⟩ 5 rfl).1,
   (c7_poll_under_budget cfgSlow envFast ⟨10, 10⟩ 5 rfl).2 ⟨0, 0⟩ 0 0 4
     (by norm_num [cfgSlow]) (by norm_num [cfgSlow])
     (by norm_num [cfgSlow, envFast, frame_time, rustRound]) rfl⟩

lemma countdown_loop_timedOut (env : PauseEnv) (pi_ ifuel : ℕ) :
    ∀ fuel s, (countdown_loop env pi_ s ifuel fuel).result = some .timedOut →
      pi_ < tailElapsed s.elapsed (countdown_loop env pi_ s ifuel fuel).log := by
  intro fuel
  induction fuel with
  | zero =>
    intro s h
    exact absurd h (by simp [countdown_loop])
  | succ n ih =>
    intro s h
    unfold countdown_loop at h ⊢
    by_cases h1 : s.elapsed ≤ pi_
    case neg =>
      rw [if_neg h1] at h ⊢
      dsimp only [tailElapsed]
      omega
    rw [if_pos h1] at h ⊢
    by_cases h2 : env.stdin80 s.i = true
    · rw [if_pos h2] at h
      exact absurd h (by simp)
    · rw [if_neg h2] at h ⊢
      rcases hr : reset_loop env s.anchor s.n s.m false ifuel with _ |
        ⟨a, nn, mm, cf, dr⟩
      · rw [hr] at h
        exact absurd h (by simp)
      · rw [hr] at h
        cases cf
        · cases dr
          · dsimp only at h ⊢
            simp only [Bool.false_eq_true, if_false] at h ⊢
            rw [tailElapsed]
            simp only [Bool.false_eq_true, if_false]
            exact ih ⟨s.elapsed + env.iterDur s.i, s.i + 1, nn, mm, a⟩ h
          · dsimp only at h ⊢
            simp only [eq_self_iff_true, if_true] at h ⊢
            rw [tailElapsed]
            simp only [eq_self_iff_true, if_true]
            exact ih ⟨env.tailDur s.i, s.i + 1, nn, mm, a⟩ h
        · dsimp only at h
          exact absurd h (by simp)

/-- Claim C6: during an adaptive auto-pause wait, a tick that observes the
device away from the anchor refreshes the anchor to the new position and
restarts the countdown from scratch (the tail duration alone, whatever had
already elapsed), and a wait that ends normally does so only because the
elapsed accounting since the last restart, the trailing stretch of
reset-free ticks, exceeds the full pause interval. -/
theorem c6_adaptive_pause (c : MCfg) (env : PauseEnv) (ifuel fuel : ℕ) :
    ((auto_pause_run c env ifuel fuel).result = some .timedOut →
      c.pause_interval < tailElapsed 0 (auto_pause_run c env ifuel fuel).log) ∧
    (∀ anchor n m, ¬ anchor.is_near (env.pos n) 100 → env.stdin2 m = false →
      (env.pos n).is_near (env.pos (n + 1)) 100 →
      reset_loop env anchor n m false (ifuel + 2) =
        some (env.pos n, n + 2, m + 1, false, true)) ∧
    (∀ s a nn mm, s.elapsed ≤ c.pause_interval → env.stdin80 s.i = false →
      reset_loop env s.anchor s.n s.m false ifuel = some (a, nn, mm, false, true) →
      countdown_loop env c.pause_interval s ifuel (fuel + 1) =
        ⟨(countdown_loop env c.pause_interval
            ⟨env.tailDur s.i, s.i + 1, nn, mm, a⟩ ifuel fuel).result,
          (true, env.tailDur s.i) ::
            (countdown_loop env c.pause_interval
              ⟨env.tailDur s.i, s.i + 1, nn, mm, a⟩ ifuel fuel).log⟩) := by
  refine ⟨?_, ?_, ?_⟩
  · intro h
    unfold auto_pause_run at h ⊢
    by_cases hap : (!c.auto_pause) = true
    · rw [if_pos hap] at h
      exact absurd h (by simp)
    · rw [if_neg hap] at h ⊢
      exact countdown_loop_timedOut env c.pause_interval ifuel fuel _ h
  · intro anchor n m hfar hstdin hnear
    unfold reset_loop
    rw [if_neg hfar, if_neg (by simp [hstdin])]
    unfold reset_loop
    rw [if_pos hnear]
  · intro s a nn mm hle h80 hr
    conv_lhs => unfold countdown_loop
    rw [if_pos hle, if_neg (by simp [h80]), hr]
    simp

/-- Witness for C6: on the concrete pause environment the wait completes
only after the reset-free tail of the log exceeds the 100 ms pause
interval, and the inner loop reports the reset with the refreshed
anchor. -/
theorem c6_witness :
    100 < tailElapsed 0 (auto_pause_run cfgPause envPause 5 10).log ∧
    reset_loop envPause ⟨0, 0⟩ 2 0 false 7 =
      some (envPause.pos 2, 4, 1, false, true) :=
  ⟨(c6_adaptive_pause cfgPause envPause 5 10).1
      (by norm_num [auto_pause_run, countdown_loop, reset_loop, cfgPause,
        envPause, PointExt.is_near]),
   (c6_adaptive_pause cfgPause envPause 5 10).2.1 ⟨0, 0⟩ 2 0
      (by norm_num [envPause, PointExt.is_near]) rfl
      (by norm_num [envPause, PointExt.is_near])⟩

end Jiggler
